import Mathlib

set_option maxRecDepth 40000

/-!
Verification of the invariant-sdk kernel (`src/kernel/src`): the canonical
identity hasher and invariant metrics (`merkle.rs`), the exact crystallizer
(`start_crystal.rs`) and the approximate crystallizer (`hnsw_crystal.rs`),
shallowly embedded in Lean.

Byte strings are modelled as `List Nat` (each entry a byte value), `u32`/`u64`
arithmetic as `Nat` arithmetic reduced `% 2^32` / `% 2^64`, and `f32` vector
components as rationals (the crystallizer claims are about which pairs are
emitted, not about rounding). SHA-256 is embedded concretely, word by word.
-/

namespace InvariantKernel

/-! ### SHA-256 (the `sha2` crate's function, as used by `merkle.rs`) -/

/-- Reduce to a 32-bit word. -/
def w32 (n : Nat) : Nat := n % 4294967296

/-- Rotate a 32-bit word right by `n`. -/
def rotr (n x : Nat) : Nat := w32 (x >>> n ||| x <<< (32 - n))

/-- The SHA-256 round constants. -/
def shaK : List Nat :=
  [1116352408, 1899447441, 3049323471, 3921009573,
   961987163, 1508970993, 2453635748, 2870763221,
   3624381080, 310598401, 607225278, 1426881987,
   1925078388, 2162078206, 2614888103, 3248222580,
   3835390401, 4022224774, 264347078, 604807628,
   770255983, 1249150122, 1555081692, 1996064986,
   2554220882, 2821834349, 2952996808, 3210313671,
   3336571891, 3584528711, 113926993, 338241895,
   666307205, 773529912, 1294757372, 1396182291,
   1695183700, 1986661051, 2177026350, 2456956037,
   2730485921, 2820302411, 3259730800, 3345764771,
   3516065817, 3600352804, 4094571909, 275423344,
   430227734, 506948616, 659060556, 883997877,
   958139571, 1322822218, 1537002063, 1747873779,
   1955562222, 2024104815, 2227730452, 2361852424,
   2428436474, 2756734187, 3204031479, 3329325298]

/-- The eight SHA-256 initial hash words. -/
def shaH0 : Nat × Nat × Nat × Nat × Nat × Nat × Nat × Nat :=
  (1779033703, 3144134277, 1013904242, 2773480762,
   1359893119, 2600822924, 528734635, 1541459225)

/-- A 64-bit value as 8 big-endian bytes. -/
def beBytes8 (n : Nat) : List Nat :=
  [n >>> 56 &&& 255, n >>> 48 &&& 255, n >>> 40 &&& 255, n >>> 32 &&& 255,
   n >>> 24 &&& 255, n >>> 16 &&& 255, n >>> 8 &&& 255, n &&& 255]

/-- A 32-bit word as 4 big-endian bytes. -/
def beBytes4 (n : Nat) : List Nat :=
  [n >>> 24 &&& 255, n >>> 16 &&& 255, n >>> 8 &&& 255, n &&& 255]

/-- SHA-256 padding: append `0x80`, zeros to 56 mod 64, then the bit length
as 8 big-endian bytes. -/
def padMessage (msg : List Nat) : List Nat :=
  msg ++ 0x80 :: (List.replicate ((119 - msg.length % 64) % 64) 0 ++ beBytes8 (8 * msg.length))

/-- Split into 64-byte blocks (fuel-driven so the kernel can evaluate it). -/
def chunks64 : Nat → List Nat → List (List Nat)
  | 0, _ => []
  | fuel + 1, l => if l.isEmpty then [] else l.take 64 :: chunks64 fuel (l.drop 64)

/-- Group bytes 4 at a time into big-endian 32-bit words. -/
def toWordsBE : List Nat → List Nat
  | b0 :: b1 :: b2 :: b3 :: rest =>
      (b0 <<< 24 ||| b1 <<< 16 ||| b2 <<< 8 ||| b3) :: toWordsBE rest
  | _ => []

/-- Extend 16 message words to the 64-entry SHA-256 message schedule. -/
def msgSchedule (w16 : List Nat) : List Nat :=
  (List.range 48).foldl
    (fun ws _ =>
      let n := ws.length
      let x15 := ws.getD (n - 15) 0
      let x2 := ws.getD (n - 2) 0
      let s0 := rotr 7 x15 ^^^ rotr 18 x15 ^^^ (x15 >>> 3)
      let s1 := rotr 17 x2 ^^^ rotr 19 x2 ^^^ (x2 >>> 10)
      ws ++ [w32 (ws.getD (n - 16) 0 + s0 + ws.getD (n - 7) 0 + s1)])
    w16

/-- One SHA-256 compression round over the eight working words. -/
def shaRound (ws : List Nat) (st : Nat × Nat × Nat × Nat × Nat × Nat × Nat × Nat) (t : Nat) :
    Nat × Nat × Nat × Nat × Nat × Nat × Nat × Nat :=
  let (a, b, c, d, e, f, g, h) := st
  let s1 := rotr 6 e ^^^ rotr 11 e ^^^ rotr 25 e
  let ch := (e &&& f) ^^^ ((e ^^^ 0xffffffff) &&& g)
  let temp1 := w32 (h + s1 + ch + shaK.getD t 0 + ws.getD t 0)
  let s0 := rotr 2 a ^^^ rotr 13 a ^^^ rotr 22 a
  let maj := (a &&& b) ^^^ (a &&& c) ^^^ (b &&& c)
  let temp2 := w32 (s0 + maj)
  (w32 (temp1 + temp2), a, b, c, w32 (d + temp1), e, f, g)

/-- Compress one 64-byte block into the running hash state. -/
def compressBlock (st : Nat × Nat × Nat × Nat × Nat × Nat × Nat × Nat) (block : List Nat) :
    Nat × Nat × Nat × Nat × Nat × Nat × Nat × Nat :=
  let ws := msgSchedule (toWordsBE block)
  let (a0, b0, c0, d0, e0, f0, g0, h0) := st
  let (a, b, c, d, e, f, g, h) := (List.range 64).foldl (shaRound ws) st
  (w32 (a0 + a), w32 (b0 + b), w32 (c0 + c), w32 (d0 + d),
   w32 (e0 + e), w32 (f0 + f), w32 (g0 + g), w32 (h0 + h))

/-- Serialize the final state as the 32-byte digest. -/
def digestOfState (st : Nat × Nat × Nat × Nat × Nat × Nat × Nat × Nat) : List Nat :=
  let (a, b, c, d, e, f, g, h) := st
  beBytes4 a ++ beBytes4 b ++ beBytes4 c ++ beBytes4 d ++
  beBytes4 e ++ beBytes4 f ++ beBytes4 g ++ beBytes4 h

/-- SHA-256 of a byte string. -/
def sha256 (msg : List Nat) : List Nat :=
  let padded := padMessage msg
  digestOfState ((chunks64 padded.length padded).foldl compressBlock shaH0)

/-! ### Hex encoding (the `hex` crate's `encode`, lowercase) -/

/-- One lowercase hex digit. -/
def hexDigitChar (n : Nat) : Char :=
  Char.ofNat (if n < 10 then 48 + n else 87 + n)

/-- A byte as two lowercase hex digits. -/
def hexByte (b : Nat) : List Char :=
  [hexDigitChar (b / 16), hexDigitChar (b % 16)]

/-- Lowercase hex encoding of a byte string. -/
def hexEncode (l : List Nat) : List Char :=
  l.flatMap hexByte

/-! ### `merkle.rs`: the canonical identity hasher -/

/-- Code model of `hash_origin`: SHA256(0x00), the digest of Origin. -/
def hash_origin : List Nat := sha256 [0x00]

/-- Code model of `hash_dyad`: SHA256(0x01 || left || right). -/
def hash_dyad (left right : List Nat) : List Nat := sha256 (0x01 :: (left ++ right))

/-- Code model of `encode_bit`: 0 maps to Origin, anything else to Dyad(Origin, Origin). -/
def encode_bit (bit : Nat) : List Nat :=
  if bit = 0 then hash_origin else hash_dyad hash_origin hash_origin

/-- Code model of `encode_byte`: fold the byte's 8 bits, least significant first,
`chain := hash_dyad (encode_bit bit) chain` starting from Origin. -/
def encode_byte (byte_val : Nat) : List Nat :=
  (List.range 8).foldl
    (fun chain i => hash_dyad (encode_bit (byte_val >>> i &&& 1)) chain)
    hash_origin

/-- Code model of `encode_string`: fold the bytes of the reversed string,
`chain := hash_dyad (encode_byte b) chain` starting from Origin. -/
def encode_string (s : List Nat) : List Nat :=
  s.reverse.foldl (fun chain b => hash_dyad (encode_byte b) chain) hash_origin

/-- Code model of `get_token_hash_hex`: hex of the root digest of the encoded string. -/
def get_token_hash_hex (s : List Nat) : List Char :=
  hexEncode (encode_string s)

/-- Code model of `bond_id`: hex of the first 8 bytes of SHA256 of the
colon-separated concatenation of u, rel, v (the colon byte is 58). -/
def bond_id (u v rel : List Nat) : List Char :=
  hexEncode ((sha256 (u ++ 58 :: (rel ++ 58 :: v))).take 8)

/-! ### `merkle.rs`: invariant metrics

`get_invariant_metrics` casts the byte length to `u32` and computes with
`u32` arithmetic (wrapping, as compiled for release) plus one explicit
`u64::wrapping_mul`; the bit-mode shape hash is the first 8 bytes of
SHA256("shape:" || bytes) read as a little-endian `u64`. -/

/-- First 8 bytes read as a little-endian 64-bit integer
(`u64::from_le_bytes(hash[0..8])`). -/
def u64FromLEBytes (l : List Nat) : Nat :=
  l.foldr (fun b acc => b + 256 * acc) 0

/-- The bytes of the literal `b"shape:"`. -/
def shapeTag : List Nat := [115, 104, 97, 112, 101, 58]

/-- Code model of `get_invariant_metrics`: the `(weight, depth, leaves, shape_hash)`
quadruple, with `u32`/`u64` arithmetic modelled as `Nat` reduced mod `2^32`/`2^64`. -/
def get_invariant_metrics (s : List Nat) (atomic : Bool) : Nat × Nat × Nat × Nat :=
  let len := s.length % 4294967296
  if atomic then
    (2 * len % 4294967296, len, (len + 1) % 4294967296,
     len * 0x517cc1b727220a95 % 18446744073709551616)
  else
    (17 * len % 4294967296, (8 + len) % 4294967296,
     (len * 9 % 4294967296 + 1) % 4294967296,
     u64FromLEBytes ((sha256 (shapeTag ++ s)).take 8))

/-! ### `start_crystal.rs` and `hnsw_crystal.rs`: crystallizers

`f32` components are modelled as rationals; the `par_iter`/`flat_map`/`collect`
pipeline is modelled by its sequential denotation (Rayon's indexed collect
keeps the per-index order). -/

/-- The `EdgeResult` struct (identical in both crystallizer files). -/
structure EdgeResult where
  source_idx : Nat
  target_idx : Nat
  score : ℚ
deriving DecidableEq, Repr

/-- The zip-style dot product `v1.iter().zip(v2.iter()).map(|(a,b)| a*b).sum()`. -/
def dotProduct (v1 v2 : List ℚ) : ℚ :=
  ((v1.zip v2).map (fun p => p.1 * p.2)).sum

/-- Code model of `compute_correlations_parallel`: for each `i`, scan `j` in `i+1 .. n-1`
(`enumerate().skip(i+1)`) and emit `(i, j, dot)` when `dot > threshold`. -/
def compute_correlations_parallel (vectors : List (List ℚ)) (threshold : ℚ) :
    List EdgeResult :=
  if vectors.isEmpty then [] else
  (List.range vectors.length).flatMap (fun i =>
    ((List.range vectors.length).drop (i + 1)).filterMap (fun j =>
      let dot := dotProduct (vectors.getD i []) (vectors.getD j [])
      if threshold < dot then some ⟨i, j, dot⟩ else none))

/-- Code model of `crystallize_hnsw`, with the `hnsw_rs` index abstracted as `search`:
`search query k ef` stands for `hnsw.search(query, k, ef)` returning
`(d_id, distance)` pairs. Each vector `i` is queried with `top_k + 1`
neighbors at breadth `max 32 top_k`; a neighbor `(j, d)` yields
`(i, j, 1 - d)` when `j ≠ i` and `1 - d > threshold`. -/
def crystallize_hnsw (search : List ℚ → Nat → Nat → List (Nat × ℚ))
    (vectors : List (List ℚ)) (threshold : ℚ) (top_k : Nat) : List EdgeResult :=
  if vectors.isEmpty then [] else
  (List.range vectors.length).flatMap (fun i =>
    (search (vectors.getD i []) (top_k + 1) (max 32 top_k)).filterMap (fun nb =>
      let j := nb.1
      let sim := 1 - nb.2
      if i ≠ j ∧ threshold < sim then some ⟨i, j, sim⟩ else none))

/-! ### Spec-side definitions

For the refinement claims, a second set of definitions follows the spec's
words; the theorems compare them with the code models above. -/

/-- Spec words: Origin = SHA256(0x00). -/
def specOrigin : List Nat := sha256 [0x00]

/-- Spec words: Dyad(l, r) = SHA256(0x01 || l || r). -/
def specDyad (l r : List Nat) : List Nat := sha256 (0x01 :: (l ++ r))

/-- Spec words: bit 0 encodes to Origin, bit 1 to Dyad(Origin, Origin). -/
def specEncodeBit (bit : Nat) : List Nat :=
  if bit = 0 then specOrigin else specDyad specOrigin specOrigin

/-- The 8 bits of a byte, least-significant first. -/
def specBitsLSB (b : Nat) : List Nat :=
  [b >>> 0 &&& 1, b >>> 1 &&& 1, b >>> 2 &&& 1, b >>> 3 &&& 1,
   b >>> 4 &&& 1, b >>> 5 &&& 1, b >>> 6 &&& 1, b >>> 7 &&& 1]

/-- Spec words: fold the byte's bits LSB to MSB from accumulator Origin with
`acc := Dyad(encode_bit bit, acc)`. -/
def specEncodeByte (b : Nat) : List Nat :=
  (specBitsLSB b).foldl (fun acc bit => specDyad (specEncodeBit bit) acc) specOrigin

/-- Spec words: fold the bytes in reverse order (last byte first) from
accumulator Origin with `acc := Dyad(encode_byte byte, acc)` — i.e. a right
fold over the string. -/
def specEncodeString (s : List Nat) : List Nat :=
  s.foldr (fun b acc => specDyad (specEncodeByte b) acc) specOrigin

/-- Spec words: the bond digest is the first 8 bytes (16 hex characters) of
SHA256 of `u ++ ":" ++ rel ++ ":" ++ v`. -/
def specBondDigest (u v rel : List Nat) : List Char :=
  hexEncode ((sha256 (u ++ [58] ++ rel ++ [58] ++ v)).take 8)

/-! ### Supporting lemmas -/

lemma length_beBytes4 (x : Nat) : (beBytes4 x).length = 4 := rfl

lemma length_digestOfState (st : Nat × Nat × Nat × Nat × Nat × Nat × Nat × Nat) :
    (digestOfState st).length = 32 := by
  obtain ⟨a, b, c, d, e, f, g, h⟩ := st
  rfl

lemma sha256_length (msg : List Nat) : (sha256 msg).length = 32 :=
  length_digestOfState _

lemma length_hexEncode (l : List Nat) : (hexEncode l).length = 2 * l.length := by
  induction l with
  | nil => rfl
  | cons b bs ih =>
      simp only [hexEncode, List.flatMap_cons, List.length_append, List.length_cons] at ih ⊢
      simp only [hexByte, List.length_cons, List.length_nil]
      omega

lemma hash_origin_eq : hash_origin = specOrigin := rfl

lemma hash_dyad_eq : hash_dyad = specDyad := rfl

lemma encode_bit_eq : encode_bit = specEncodeBit := by
  funext bit
  rw [encode_bit, specEncodeBit, hash_origin_eq, hash_dyad_eq]

lemma hash_origin_length : hash_origin.length = 32 := by
  rw [hash_origin]; exact sha256_length _

lemma hash_dyad_length (l r : List Nat) : (hash_dyad l r).length = 32 := by
  rw [hash_dyad]; exact sha256_length _

lemma specBitsLSB_eq_map (b : Nat) :
    specBitsLSB b = (List.range 8).map (fun i => b >>> i &&& 1) := rfl

lemma encode_byte_eq_spec (b : Nat) : encode_byte b = specEncodeByte b := by
  rw [encode_byte, specEncodeByte, hash_origin_eq, hash_dyad_eq, encode_bit_eq,
    specBitsLSB_eq_map, List.foldl_map]

lemma encode_string_eq_spec (s : List Nat) : encode_string s = specEncodeString s := by
  rw [encode_string, List.foldl_reverse, specEncodeString]
  induction s with
  | nil => simp only [List.foldr_nil]; exact hash_origin_eq
  | cons b bs ih =>
      simp only [List.foldr_cons]
      rw [ih, hash_dyad_eq, encode_byte_eq_spec]

lemma encode_string_length (s : List Nat) : (encode_string s).length = 32 := by
  rw [encode_string]
  have aux : ∀ (l : List Nat) (init : List Nat), init.length = 32 →
      (l.foldl (fun chain b => hash_dyad (encode_byte b) chain) init).length = 32 := by
    intro l
    induction l with
    | nil => intro init h; exact h
    | cons x xs ih =>
        intro init _
        have h2 : (hash_dyad (encode_byte x) init).length = 32 := hash_dyad_length _ _
        rw [List.foldl_cons]
        exact ih _ h2
  exact aux s.reverse hash_origin hash_origin_length

lemma mem_drop_range {n k j : Nat} : j ∈ (List.range n).drop k ↔ k ≤ j ∧ j < n := by
  rw [List.mem_iff_getElem]
  constructor
  · rintro ⟨m, hm, rfl⟩
    rw [List.getElem_drop, List.getElem_range]
    rw [List.length_drop, List.length_range] at hm
    omega
  · rintro ⟨h1, h2⟩
    have hlen : j - k < (List.drop k (List.range n)).length := by
      rw [List.length_drop, List.length_range]; omega
    refine ⟨j - k, hlen, ?_⟩
    rw [List.getElem_drop, List.getElem_range]
    omega

lemma mem_compute_correlations {vs : List (List ℚ)} {t : ℚ} {i j : Nat} {s : ℚ} :
    (⟨i, j, s⟩ : EdgeResult) ∈ compute_correlations_parallel vs t ↔
      i < j ∧ j < vs.length ∧ s = dotProduct (vs.getD i []) (vs.getD j []) ∧ t < s := by
  rw [compute_correlations_parallel]
  by_cases hvs : vs.isEmpty
  · rw [if_pos hvs]
    have h0 : vs.length = 0 := by
      rwa [List.isEmpty_iff_length_eq_zero] at hvs
    simp [h0]
  · rw [if_neg hvs, List.mem_flatMap]
    constructor
    · rintro ⟨a, ha, hmem⟩
      rw [List.mem_filterMap] at hmem
      obtain ⟨b, hb, heq⟩ := hmem
      rw [mem_drop_range] at hb
      simp only at heq
      split at heq
      · rename_i hlt
        rw [Option.some.injEq, EdgeResult.mk.injEq] at heq
        obtain ⟨rfl, rfl, rfl⟩ := heq
        rw [List.mem_range] at ha
        exact ⟨by omega, hb.2, rfl, hlt⟩
      · exact absurd heq (by simp)
    · rintro ⟨hij, hj, rfl, ht⟩
      refine ⟨i, ?_, ?_⟩
      · rw [List.mem_range]; omega
      · rw [List.mem_filterMap]
        refine ⟨j, ?_, ?_⟩
        · rw [mem_drop_range]; exact ⟨by omega, hj⟩
        · simp only
          rw [if_pos ht]

lemma mem_inner_pairs {vs : List (List ℚ)} {t : ℚ} {a : Nat} {p : Nat × Nat}
    (hp : p ∈ (((List.range vs.length).drop (a + 1)).filterMap (fun j =>
      let dot := dotProduct (vs.getD a []) (vs.getD j [])
      if t < dot then some (⟨a, j, dot⟩ : EdgeResult) else none)).map
        (fun e => (e.source_idx, e.target_idx))) :
    p.1 = a ∧ a + 1 ≤ p.2 := by
  rw [List.mem_map] at hp
  obtain ⟨e, he, rfl⟩ := hp
  rw [List.mem_filterMap] at he
  obtain ⟨j, hj, heq⟩ := he
  rw [mem_drop_range] at hj
  simp only at heq
  split at heq
  · rw [Option.some.injEq] at heq
    subst heq
    exact ⟨rfl, hj.1⟩
  · exact absurd heq (by simp)

lemma nodup_pairs_compute (vs : List (List ℚ)) (t : ℚ) :
    ((compute_correlations_parallel vs t).map
      (fun e => (e.source_idx, e.target_idx))).Nodup := by
  rw [compute_correlations_parallel]
  by_cases hvs : vs.isEmpty
  · simp [hvs]
  · rw [if_neg hvs, List.map_flatMap, List.nodup_flatMap]
    have hfun : ∀ y jj : Nat,
        Option.map (fun e : EdgeResult => (e.source_idx, e.target_idx))
          (if t < dotProduct (vs.getD y []) (vs.getD jj []) then
            some (⟨y, jj, dotProduct (vs.getD y []) (vs.getD jj [])⟩ : EdgeResult)
          else none)
          = if t < dotProduct (vs.getD y []) (vs.getD jj []) then some (y, jj) else none := by
      intro y jj; split <;> rfl
    constructor
    · intro x _
      rw [List.map_filterMap]
      simp only [hfun]
      apply List.Nodup.filterMap
      · intro a a' b hb hb'
        simp only [Option.mem_def] at hb hb'
        split at hb
        · rw [Option.some.injEq] at hb
          split at hb'
          · rw [Option.some.injEq] at hb'
            exact congrArg Prod.snd (hb.trans hb'.symm)
          · exact absurd hb' (by simp)
        · exact absurd hb (by simp)
      · exact ((List.range vs.length).drop_sublist (x + 1)).nodup (List.nodup_range _)
    · have hpw := List.pairwise_lt_range vs.length
      refine hpw.imp ?_
      intro a b hab
      intro p hpa hpb
      have h1 := (mem_inner_pairs hpa).1
      have h2 := (mem_inner_pairs hpb).1
      omega

lemma zip_take_min (v1 : List ℚ) : ∀ v2 : List ℚ,
    v1.zip v2 = (v1.take (min v1.length v2.length)).zip
      (v2.take (min v1.length v2.length)) := by
  induction v1 with
  | nil => intro v2; simp
  | cons a as ih =>
      intro v2
      cases v2 with
      | nil => simp
      | cons b bs =>
          have hmin : min (a :: as).length (b :: bs).length
              = min as.length bs.length + 1 := by
            simp only [List.length_cons]; omega
          rw [hmin, List.zip_cons_cons, List.take_succ_cons, List.take_succ_cons,
            List.zip_cons_cons, ← ih bs]

lemma dotProduct_take (v1 v2 : List ℚ) :
    dotProduct v1 v2
      = dotProduct (v1.take (min v1.length v2.length))
          (v2.take (min v1.length v2.length)) := by
  rw [dotProduct, dotProduct, ← zip_take_min]

lemma mem_crystallize_hnsw {search : List ℚ → Nat → Nat → List (Nat × ℚ)}
    {vs : List (List ℚ)} {t : ℚ} {k i j : Nat} {s : ℚ} :
    (⟨i, j, s⟩ : EdgeResult) ∈ crystallize_hnsw search vs t k ↔
      ∃ d : ℚ, i < vs.length ∧ (j, d) ∈ search (vs.getD i []) (k + 1) (max 32 k)
        ∧ j ≠ i ∧ s = 1 - d ∧ t < s := by
  rw [crystallize_hnsw]
  by_cases hvs : vs.isEmpty
  · rw [if_pos hvs]
    have h0 : vs.length = 0 := by rwa [List.isEmpty_iff_length_eq_zero] at hvs
    simp [h0]
  · rw [if_neg hvs, List.mem_flatMap]
    constructor
    · rintro ⟨a, ha, hmem⟩
      rw [List.mem_filterMap] at hmem
      obtain ⟨nb, hnb, heq⟩ := hmem
      simp only at heq
      split at heq
      · rename_i hc
        rw [Option.some.injEq, EdgeResult.mk.injEq] at heq
        obtain ⟨rfl, rfl, rfl⟩ := heq
        rw [List.mem_range] at ha
        exact ⟨nb.2, ha, by rwa [Prod.mk.eta], fun h => hc.1 h.symm, rfl, hc.2⟩
      · exact absurd heq (by simp)
    · rintro ⟨d, hi, hmem, hji, rfl, ht⟩
      refine ⟨i, List.mem_range.mpr hi, ?_⟩
      rw [List.mem_filterMap]
      refine ⟨(j, d), hmem, ?_⟩
      simp only
      rw [if_pos ⟨fun h => hji h.symm, ht⟩]

/-! ### Claim theorems -/

/-- C1: for every byte string, `get_token_hash_hex` equals the hex encoding
(64 characters) of the root digest of the spec's recursive construction
(Origin/Dyad, bits LSB-first, bytes folded in reverse); for the empty string
it is the hex encoding of Origin. -/
theorem token_digest_matches_spec (s : List Nat) :
    get_token_hash_hex s = hexEncode (specEncodeString s)
    ∧ (get_token_hash_hex s).length = 64
    ∧ get_token_hash_hex [] = hexEncode specOrigin := by
  refine ⟨?_, ?_, ?_⟩
  · rw [get_token_hash_hex, encode_string_eq_spec]
  · rw [get_token_hash_hex, length_hexEncode, encode_string_length]
  · rw [get_token_hash_hex, encode_string_eq_spec, specEncodeString, List.foldr_nil]

/-- C6: `bond_id u v rel` is the hex encoding (16 characters) of the first
8 bytes of SHA256 of `u ++ ":" ++ rel ++ ":" ++ v`, with `rel` in the middle. -/
theorem bond_digest_matches_spec (u v rel : List Nat) :
    bond_id u v rel = specBondDigest u v rel
    ∧ (bond_id u v rel).length = 16 := by
  constructor
  · rw [bond_id, specBondDigest]
    have h : u ++ 58 :: (rel ++ 58 :: v) = u ++ [58] ++ rel ++ [58] ++ v := by
      simp
    rw [h]
  · rw [bond_id, length_hexEncode, List.length_take, sha256_length]
    decide

/-- C7: the bond digest is deterministic and order-sensitive in its first two
arguments: swapping "a" and "b" (rel = "IMP") changes the digest. -/
theorem bond_digest_order_sensitive :
    bond_id [97] [98] [73, 77, 80] = bond_id [97] [98] [73, 77, 80]
    ∧ bond_id [97] [98] [73, 77, 80] ≠ bond_id [98] [97] [73, 77, 80] :=
  ⟨rfl, by decide⟩

/-- C2: the exact crystallizer emits exactly the edges `(i, j, dot)` with
`i < j` and `dot > threshold` (strict), each unordered pair at most once,
and the empty collection yields the empty output. -/
theorem exact_crystallizer_spec (vs : List (List ℚ)) (t : ℚ) (i j : Nat) (s : ℚ) :
    ((⟨i, j, s⟩ : EdgeResult) ∈ compute_correlations_parallel vs t ↔
      i < j ∧ j < vs.length ∧ s = dotProduct (vs.getD i []) (vs.getD j []) ∧ t < s)
    ∧ ((compute_correlations_parallel vs t).map
        (fun e => (e.source_idx, e.target_idx))).Nodup
    ∧ compute_correlations_parallel [] t = [] :=
  ⟨mem_compute_correlations, nodup_pairs_compute vs t, rfl⟩

/-- C3: the approximate crystallizer queries the index for `top_k + 1`
neighbors of each vector at breadth `max 32 top_k`, converts distance `d` to
similarity `1 - d`, and emits `(i, j, 1 - d)` iff `j ≠ i` and `1 - d > t`;
hence no self-loops, no score `≤ t`, and empty input yields empty output. -/
theorem approx_crystallizer_spec (search : List ℚ → Nat → Nat → List (Nat × ℚ))
    (vs : List (List ℚ)) (t : ℚ) (k i j : Nat) (s : ℚ) :
    ((⟨i, j, s⟩ : EdgeResult) ∈ crystallize_hnsw search vs t k ↔
      ∃ d : ℚ, i < vs.length ∧ (j, d) ∈ search (vs.getD i []) (k + 1) (max 32 k)
        ∧ j ≠ i ∧ s = 1 - d ∧ t < s)
    ∧ (∀ e ∈ crystallize_hnsw search vs t k,
        e.source_idx ≠ e.target_idx ∧ t < e.score)
    ∧ crystallize_hnsw search [] t k = [] := by
  refine ⟨mem_crystallize_hnsw, ?_, rfl⟩
  rintro ⟨ei, ej, es⟩ he
  obtain ⟨d, _, _, hji, _, ht⟩ := mem_crystallize_hnsw.mp he
  exact ⟨fun h => hji h.symm, ht⟩

/-- C8: with `top_k = 0` the index is asked for exactly 1 neighbor per
vector; when the index returns the vector itself (as the spec describes),
self-exclusion removes it and the call returns the empty sequence — defined
behavior, not an error. -/
theorem hnsw_top_k_zero (search : List ℚ → Nat → Nat → List (Nat × ℚ))
    (vs : List (List ℚ)) (t : ℚ) (hne : vs ≠ [])
    (hself : ∀ i, i < vs.length → ∀ p ∈ search (vs.getD i []) 1 32, p.1 = i) :
    crystallize_hnsw search vs t 0 = [] := by
  rw [crystallize_hnsw, if_neg (by simpa [List.isEmpty_iff] using hne)]
  rw [List.flatMap_eq_nil_iff]
  intro a ha
  rw [List.filterMap_eq_nil_iff]
  intro nb hnb
  have hid := hself a (List.mem_range.mp ha) nb (by simpa using hnb)
  simp only
  rw [if_neg]
  rintro ⟨hne', _⟩
  exact hne' hid.symm

/-- Witness for C8 at a concrete collection and search function. -/
theorem hnsw_top_k_zero_witness :
    crystallize_hnsw (fun _ _ _ => [(0, 0)]) [[1]] (-1) 0 = [] :=
  hnsw_top_k_zero _ _ _ (by decide) (by decide)

/-- C9: the zip-style dot product silently truncates to the shorter vector,
and the exact crystallizer emits or suppresses an edge based on that
truncated dot product; no error is signalled (the function is total). -/
theorem mismatched_dims_truncate (v1 v2 : List ℚ) (vs : List (List ℚ)) (t : ℚ)
    (i j : Nat) (s : ℚ) :
    dotProduct v1 v2
      = dotProduct (v1.take (min v1.length v2.length))
          (v2.take (min v1.length v2.length))
    ∧ ((⟨i, j, s⟩ : EdgeResult) ∈ compute_correlations_parallel vs t ↔
        i < j ∧ j < vs.length
        ∧ s = dotProduct
            ((vs.getD i []).take (min (vs.getD i []).length (vs.getD j []).length))
            ((vs.getD j []).take (min (vs.getD i []).length (vs.getD j []).length))
        ∧ t < s) := by
  refine ⟨dotProduct_take v1 v2, ?_⟩
  rw [mem_compute_correlations, ← dotProduct_take]

lemma metrics_true (s : List Nat) :
    get_invariant_metrics s true
      = (2 * (s.length % 4294967296) % 4294967296, s.length % 4294967296,
         (s.length % 4294967296 + 1) % 4294967296,
         (s.length % 4294967296) * 0x517cc1b727220a95 % 18446744073709551616) := rfl

lemma metrics_false (s : List Nat) :
    get_invariant_metrics s false
      = (17 * (s.length % 4294967296) % 4294967296,
         (8 + s.length % 4294967296) % 4294967296,
         (s.length % 4294967296 * 9 % 4294967296 + 1) % 4294967296,
         u64FromLEBytes ((sha256 (shapeTag ++ s)).take 8)) := rfl

/-- Counterexample to C4 as stated: at a string of 2^31 bytes the atomic-mode
weight is computed in `u32` and wraps, so it differs from `2 * L`. -/
theorem atomic_weight_wraps :
    (get_invariant_metrics (List.replicate 2147483648 0) true).1
      ≠ 2 * (List.replicate 2147483648 0).length := by
  rw [metrics_true, List.length_replicate]
  dsimp only
  decide

/-- C4 (amended): whenever `2 * L` fits in a `u32`, atomic-mode metrics are
exactly `(2L, L, L+1, f(L))` with `f` depending only on `L`; and,
unconditionally, any two strings of equal byte length yield identical
quadruples in atomic mode. -/
theorem atomic_metrics_spec (s : List Nat) :
    (2 * s.length < 4294967296 →
      get_invariant_metrics s true
        = (2 * s.length, s.length, s.length + 1,
           s.length * 0x517cc1b727220a95 % 18446744073709551616))
    ∧ ∀ s2 : List Nat, s2.length = s.length →
        get_invariant_metrics s2 true = get_invariant_metrics s true := by
  constructor
  · intro h
    rw [metrics_true, Nat.mod_eq_of_lt (show s.length < 4294967296 by omega),
      Nat.mod_eq_of_lt h, Nat.mod_eq_of_lt (show s.length + 1 < 4294967296 by omega)]
  · intro s2 h2
    rw [metrics_true, metrics_true, h2]

/-- Witness for C4's amended theorem: the formula instantiated at the
concrete string "ab", and the identical-quadruples conjunct at the
equal-length string "bc". -/
theorem atomic_metrics_spec_witness :
    get_invariant_metrics [97, 98] true
      = (2 * ([97, 98] : List Nat).length, ([97, 98] : List Nat).length,
         ([97, 98] : List Nat).length + 1,
         ([97, 98] : List Nat).length * 0x517cc1b727220a95 % 18446744073709551616)
    ∧ get_invariant_metrics [98, 99] true = get_invariant_metrics [97, 98] true :=
  ⟨(atomic_metrics_spec [97, 98]).1 (by decide),
   (atomic_metrics_spec [97, 98]).2 [98, 99] (by decide)⟩

/-- Counterexample to C5 as stated: at a string of 2^31 bytes the bit-mode
weight is computed in `u32` and wraps, so it differs from `17 * L`. -/
theorem bit_weight_wraps :
    (get_invariant_metrics (List.replicate 2147483648 0) false).1
      ≠ 17 * (List.replicate 2147483648 0).length := by
  rw [metrics_false, List.length_replicate]
  dsimp only
  decide

/-- C5 (amended): whenever `17 * L` fits in a `u32`, bit-mode metrics are
exactly `(17L, 8+L, 9L+1, shape)` where `shape` is the first 8 bytes of
SHA256 of the fixed tag "shape:" followed by the raw bytes, read as a 64-bit
little-endian integer; equal-length strings with different content give
different shape hashes (shown at "a" vs "b"). -/
theorem bit_metrics_spec (s : List Nat) (h : 17 * s.length < 4294967296) :
    get_invariant_metrics s false
      = (17 * s.length, 8 + s.length, 9 * s.length + 1,
         u64FromLEBytes ((sha256 (shapeTag ++ s)).take 8))
    ∧ (get_invariant_metrics [97] false).2.2.2
        ≠ (get_invariant_metrics [98] false).2.2.2 := by
  constructor
  · rw [metrics_false, Nat.mod_eq_of_lt (show s.length < 4294967296 by omega),
      Nat.mod_eq_of_lt h, Nat.mod_eq_of_lt (show 8 + s.length < 4294967296 by omega),
      Nat.mod_eq_of_lt (show s.length * 9 < 4294967296 by omega),
      Nat.mod_eq_of_lt (show s.length * 9 + 1 < 4294967296 by omega),
      Nat.mul_comm s.length 9]
  · decide

/-- Witness for C5's amended theorem at the concrete string "a". -/
theorem bit_metrics_spec_witness :
    get_invariant_metrics [97] false
      = (17 * ([97] : List Nat).length, 8 + ([97] : List Nat).length,
         9 * ([97] : List Nat).length + 1,
         u64FromLEBytes ((sha256 (shapeTag ++ [97])).take 8))
    ∧ (get_invariant_metrics [97] false).2.2.2
        ≠ (get_invariant_metrics [98] false).2.2.2 :=
  bit_metrics_spec [97] (by decide)

/-- C10: `get_invariant_metrics` does all counting arithmetic in 32-bit
modular arithmetic on the length truncated to 32 bits; the documented
formulas hold exactly only below the wrap, and lengths congruent mod 2^32
give identical counting metrics. -/
theorem metrics_u32_wrap (s : List Nat) :
    get_invariant_metrics s true
      = (2 * (s.length % 4294967296) % 4294967296, s.length % 4294967296,
         (s.length % 4294967296 + 1) % 4294967296,
         (s.length % 4294967296) * 0x517cc1b727220a95 % 18446744073709551616)
    ∧ (get_invariant_metrics s false).1 = 17 * (s.length % 4294967296) % 4294967296
    ∧ (get_invariant_metrics s false).2.1 = (8 + s.length % 4294967296) % 4294967296
    ∧ (get_invariant_metrics s false).2.2.1
        = (9 * (s.length % 4294967296) + 1) % 4294967296 := by
  refine ⟨metrics_true s, ?_, ?_, ?_⟩
  · rw [metrics_false]
  · rw [metrics_false]
  · rw [metrics_false]
    dsimp only
    omega
